import Mathlib

/-!
Verification of the row-matching and diff-classification core of the
CSV-comparison repository (src/backend/csv_diff.py) against its design
specification.  The Python source is shallowly embedded below: every cell is a
string, pandas DataFrames become `Table` values, Python dicts become
insertion-ordered association lists, and the iteration order of Python's
unordered sets (whose order is hash-seed dependent) is threaded through as an
explicit enumeration-order parameter (`sigc` for column sets, `sigk` for
key-tuple sets).  A call that can raise a pandas KeyError is modelled with
`Option`.
-/

set_option autoImplicit false

namespace CsvDiff

/-- A parsed table: ordered column names and ordered rows of string cells,
mirroring a pandas DataFrame after string coercion. -/
structure Table where
  cols : List String
  rows : List (List String)
  deriving DecidableEq, Repr

/-- pandas `DataFrame.empty`: true when either axis has length 0. -/
def Table.isEmptyDF (t : Table) : Bool :=
  t.rows.isEmpty || t.cols.isEmpty

/-- The whitespace characters Python's `str.strip()` removes (ASCII range). -/
def isSpaceChar (c : Char) : Bool :=
  c = ' ' || c = '\t' || c = '\n' || c = '\x0d' || c = '\x0b' || c = '\x0c'

/-- Drop leading whitespace characters. -/
def dropLeading : List Char → List Char
  | [] => []
  | c :: cs => if isSpaceChar c then dropLeading cs else c :: cs

/-- Python `str.strip()`: remove leading and trailing whitespace. -/
def pyStrip (s : String) : String :=
  ⟨(dropLeading (dropLeading s.data).reverse).reverse⟩

/-- One cell of `_normalize_dataframe`: `astype(str)` keeps the textual form,
`.str.strip()` removes leading/trailing whitespace, and the final lambda maps
a stripped value equal to `"nan"` to the empty string. -/
def normalizeCell (s : String) : String :=
  let t := pyStrip s
  if t = "nan" then "" else t

/-- Source `_normalize_dataframe` applied to one row. -/
def normalizeRow (r : List String) : List String := r.map normalizeCell

/-- Source `_normalize_dataframe`: normalize every cell; columns are unchanged. -/
def normalizeTable (t : Table) : Table := ⟨t.cols, t.rows.map normalizeRow⟩

/-- pandas `Series.get(col, default)` with default `""`: the row is indexed by
its table's column list; an absent label yields the default. -/
def rowGet (cols row : List String) (c : String) : String :=
  match cols.indexOf? c with
  | some i => row.getD i ""
  | none => ""

/-- Insertion into a Python set/dict key sequence: first occurrence keeps its
position, repeats are dropped. -/
def insertUniq {α : Type} [DecidableEq α] (l : List α) (a : α) : List α :=
  if a ∈ l then l else l ++ [a]

/-- The canonical (first-seen) listing of the set of elements of `l`.  Python
iterates such a set in a hash-dependent order; that order is modelled by a
separate permutation parameter applied on top of this listing. -/
def dedupFirst {α : Type} [DecidableEq α] (l : List α) : List α :=
  l.foldl insertUniq []

/-- Lexicographic comparison of character lists by code point, as Python
compares strings. -/
def charListLe : List Char → List Char → Bool
  | [], _ => true
  | _ :: _, [] => false
  | c :: cs, d :: ds => if c < d then true else if d < c then false else charListLe cs ds

/-- Python string comparison `s <= t`: code-point lexicographic order. -/
def pyLe (s t : String) : Bool := charListLe s.data t.data

/-- Insert into a lexicographically ascending list of strings. -/
def insSorted (a : String) : List String → List String
  | [] => [a]
  | b :: l => if pyLe a b then a :: b :: l else b :: insSorted a l

/-- Python `list.sort()` on strings: lexicographic ascending order. -/
def sortStrs (l : List String) : List String := l.foldr insSorted []

/-- Source `tuple(row[col] for col in key_columns)`.  In every call site of the
source the key columns are common columns of both tables, so the label lookup
never raises; `rowGet` is its total model. -/
def keyTuple (cols row : List String) (keys : List String) : List String :=
  keys.map (fun k => rowGet cols row k)

/-- A Python dict as an insertion-ordered association list: assigning to an
existing key updates it in place, a new key is appended. -/
def dictInsert {α β : Type} [DecidableEq α] (d : List (α × β)) (k : α) (v : β) :
    List (α × β) :=
  if k ∈ d.map Prod.fst then d.map (fun p => if p.1 = k then (k, v) else p)
  else d ++ [(k, v)]

/-- Python `dict.get(key)`: the value stored at the first (unique) entry for
`k`, or `none`. -/
def dictGet {α β : Type} [DecidableEq α] : List (α × β) → α → Option β
  | [], _ => none
  | p :: d, k => if p.1 = k then some p.2 else dictGet d k

/-- The lookup-building loops of `_match_rows_by_keys`: key-tuple to row,
later rows overwriting earlier ones with the same key. -/
def buildLookup (cols keys : List String) (rows : List (List String)) :
    List (List String × List String) :=
  rows.foldl (fun d r => dictInsert d (keyTuple cols r keys) r) []

/-- Source `list(set(df1.columns) & set(df2.columns))` in `_find_key_columns`: the
common columns, listed in the set-iteration order `sigc` applied to the
canonical first-seen listing. -/
def commonCols (sigc : List String → List String) (t1 t2 : Table) : List String :=
  sigc (dedupFirst (t1.cols.filter (fun c => decide (c ∈ t2.cols))))

/-- Source `len(df[col].unique())` of `_find_key_columns`: the number of distinct
values in the column. -/
def uniqueCount (t : Table) (c : String) : Nat :=
  (dedupFirst (t.rows.map (fun r => rowGet t.cols r c))).length

/-- The qualification loop of `_find_key_columns`: a column is appended to
`potential_keys` only when both tables have at least one row and both
uniqueness ratios exceed 0.8.  For any table of realistic size, the float test
`u / n > 0.8` is exactly `5 * u > 4 * n`. -/
def potentialKeys (sigc : List String → List String) (t1 t2 : Table) : List String :=
  (commonCols sigc t1 t2).filter (fun c =>
    decide (0 < t1.rows.length) && decide (0 < t2.rows.length) &&
    decide (4 * t1.rows.length < 5 * uniqueCount t1 c) &&
    decide (4 * t2.rows.length < 5 * uniqueCount t2 c))

/-- Source `_find_key_columns`: qualifying columns, falling back to the first
`min(3, |common|)` common columns, truncated to at most 3. -/
def findKeyColumns (sigc : List String → List String) (t1 t2 : Table) : List String :=
  let common := commonCols sigc t1 t2
  if common = [] then []
  else
    let pot := potentialKeys sigc t1 t2
    (if pot = [] then common.take (min 3 common.length) else pot).take 3

/-- One output row of the diff (`DiffRow` dataclass of the source). -/
structure DiffRow where
  row_index : Nat
  status : String
  old_data : Option (List (String × String))
  new_data : Option (List (String × String))
  changed_columns : Option (List String)
  deriving DecidableEq, Repr

/-- The `DiffSummary` dataclass of the source. -/
structure DiffSummary where
  total_rows : Nat
  added_rows : Nat
  removed_rows : Nat
  modified_rows : Nat
  unchanged_rows : Nat
  deriving DecidableEq, Repr

/-- The `DiffResult` dataclass of the source. -/
structure DiffResult where
  summary : DiffSummary
  column_names : List String
  rows : List DiffRow
  file1_name : String
  file2_name : String
  deriving DecidableEq, Repr

/-- The `changed_columns` loop of `_compare_rows`: the columns of `allCols`
(in order) whose stripped old and new values differ. -/
def changedColumnsOf (cols1 og cols2 nr : List String) (allCols : List String) :
    List String :=
  allCols.filter
    (fun c => decide (¬ pyStrip (rowGet cols1 og c) = pyStrip (rowGet cols2 nr c)))

/-- Source `_compare_rows`: classify one matched pair.  The old row is indexed by
df1's columns, the new row by df2's; data maps are built over `allCols` in
order, with `""` for an absent column. -/
def compareRows (cols1 : List String) (o : Option (List String))
    (cols2 : List String) (n : Option (List String))
    (allCols : List String) (i : Nat) : DiffRow :=
  match o, n with
  | none, some nr =>
    DiffRow.mk i "added" none
      (some (allCols.map (fun c => (c, rowGet cols2 nr c)))) none
  | some og, none =>
    DiffRow.mk i "removed"
      (some (allCols.map (fun c => (c, rowGet cols1 og c)))) none none
  | some og, some nr =>
    DiffRow.mk i
      (if changedColumnsOf cols1 og cols2 nr allCols = [] then "unchanged"
       else "modified")
      (some (allCols.map (fun c => (c, rowGet cols1 og c))))
      (some (allCols.map (fun c => (c, rowGet cols2 nr c))))
      (if changedColumnsOf cols1 og cols2 nr allCols = [] then none
       else some (changedColumnsOf cols1 og cols2 nr allCols))
  | none, none => DiffRow.mk i "unchanged" none none none

/-- The keyed branch of `compare`: `_match_rows_by_keys` followed by the
classification loop, output index = position in the enumeration of the union
of key tuples (order `sigk`). -/
def keyedRows (sigk : List (List String) → List (List String))
    (t1 t2 : Table) (keyCols allCols : List String) : List DiffRow :=
  let l1 := buildLookup t1.cols keyCols t1.rows
  let l2 := buildLookup t2.cols keyCols t2.rows
  let allKeys := sigk (dedupFirst (l1.map Prod.fst ++ l2.map Prod.fst))
  allKeys.enum.map
    (fun p => compareRows t1.cols (dictGet l1 p.2) t2.cols (dictGet l2 p.2) allCols p.1)

/-- The positional fallback branch of `compare`: pair rows by index up to the
longer table's length. -/
def positionalRows (t1 t2 : Table) (allCols : List String) : List DiffRow :=
  (List.range (max t1.rows.length t2.rows.length)).map
    (fun i => compareRows t1.cols t1.rows[i]? t2.cols t2.rows[i]? allCols i)

/-- Source `sum(1 for row in diff_rows if row.status == s)`. -/
def countStatus (s : String) (l : List DiffRow) : Nat :=
  l.countP (fun d => decide (d.status = s))

/-- Source `sorted(set(df1.columns) | set(df2.columns))`: the union of the column
names, lexicographically sorted (so order-deterministic despite the set). -/
def allColumns (t1 t2 : Table) : List String :=
  sortStrs (dedupFirst (t1.cols ++ t2.cols))

/-- Source `CSVDiffer.compare`: the full diff.  `sigc` and `sigk` are the iteration
orders of the two unordered sets the source relies on. -/
def compare (sigc : List String → List String)
    (sigk : List (List String) → List (List String))
    (t1 t2 : Table) (f1 f2 : String) : DiffResult :=
  if t1.isEmptyDF && t2.isEmptyDF then
    ⟨⟨0, 0, 0, 0, 0⟩, [], [], f1, f2⟩
  else
    let t1n := normalizeTable t1
    let t2n := normalizeTable t2
    let allCols := allColumns t1n t2n
    let keyCols := findKeyColumns sigc t1n t2n
    let diffRows :=
      if keyCols = [] then positionalRows t1n t2n allCols
      else keyedRows sigk t1n t2n keyCols allCols
    ⟨⟨diffRows.length, countStatus "added" diffRows, countStatus "removed" diffRows,
      countStatus "modified" diffRows, countStatus "unchanged" diffRows⟩,
      allCols, diffRows, f1, f2⟩

/-- Source `df[col]` column projection; `none` models the KeyError pandas raises when
the label is absent from the frame. -/
def colVals (t : Table) (c : String) : Option (List String) :=
  if c ∈ t.cols then some (t.rows.map (fun r => rowGet t.cols r c)) else none

/-- The auto-detection preference list of `compare_customers`. -/
def potentialIdColumns : List String :=
  ["id", "customer_id", "user_id", "merchant_id", "merchant-display-name",
   "merchant-public-id"]

/-- The emission loop of `compare_customers`: walk df2's normalized rows in
order, keep the rows whose id value lies in `set(news) - set(olds)`, and
assign `row_index` 0,1,2,... in emission order. -/
def additionsLoop (cols2 : List String) (idCol : String) (olds news : List String)
    (allCols : List String) : List (List String) → Nat → List DiffRow
  | [], _ => []
  | r :: rs, i =>
    if rowGet cols2 r idCol ∈ news ∧ ¬ rowGet cols2 r idCol ∈ olds then
      DiffRow.mk i "added" none
          (some (allCols.map (fun c => (c, rowGet cols2 r c)))) none
        :: additionsLoop cols2 idCol olds news allCols rs (i + 1)
    else additionsLoop cols2 idCol olds news allCols rs i

/-- Source `CSVDiffer.compare_customers`: the additions-only mode.  A `none` result
models the KeyError raised when the chosen identifier column is absent from
one of the two frames. -/
def compare_customers (sigc : List String → List String)
    (sigk : List (List String) → List (List String))
    (t1 t2 : Table) (f1 f2 : String)
    (customer_id_column : Option String) : Option DiffResult :=
  if t1.isEmptyDF && t2.isEmptyDF then
    some ⟨⟨0, 0, 0, 0, 0⟩, [], [], f1, f2⟩
  else
    let t1n := normalizeTable t1
    let t2n := normalizeTable t2
    let allCols := allColumns t1n t2n
    let cid : Option String :=
      match customer_id_column with
      | some c => some c
      | none =>
        match potentialIdColumns.find? (fun c => decide (c ∈ allCols)) with
        | some c => some c
        | none => allCols.head?
    match cid with
    | none => some (compare sigc sigk t1 t2 f1 f2)
    | some c =>
      if c = "" ∨ ¬ c ∈ allCols then some (compare sigc sigk t1 t2 f1 f2)
      else
        match colVals t1n c, colVals t2n c with
        | some olds, some news =>
          let diffRows := additionsLoop t2n.cols c olds news allCols t2n.rows 0
          some ⟨⟨diffRows.length, diffRows.length, 0, 0, 0⟩, allCols, diffRows, f1, f2⟩
        | _, _ => none

/-- The status strings a DiffRow can carry. -/
def StatusOK (d : DiffRow) : Prop :=
  d.status = "added" ∨ d.status = "removed" ∨ d.status = "modified" ∨
    d.status = "unchanged"

/-! ### Helper lemmas about the set/dict model -/

theorem mem_insertUniq {α : Type} [DecidableEq α] (l : List α) (a b : α) :
    b ∈ insertUniq l a ↔ b ∈ l ∨ b = a := by
  unfold insertUniq
  by_cases h : a ∈ l
  · simp only [if_pos h, List.mem_append]
    constructor
    · exact fun hb => Or.inl hb
    · rintro (hb | rfl)
      · exact hb
      · exact h
  · simp [if_neg h, List.mem_append]

theorem mem_foldl_insertUniq {α : Type} [DecidableEq α] (l : List α) :
    ∀ (acc : List α) (b : α), b ∈ l.foldl insertUniq acc ↔ b ∈ acc ∨ b ∈ l := by
  induction l with
  | nil => simp
  | cons a l ih =>
    intro acc b
    simp only [List.foldl_cons, ih, mem_insertUniq, List.mem_cons]
    tauto

theorem mem_dedupFirst {α : Type} [DecidableEq α] (l : List α) (b : α) :
    b ∈ dedupFirst l ↔ b ∈ l := by
  unfold dedupFirst
  simp [mem_foldl_insertUniq]

theorem foldl_insertUniq_of_subset {α : Type} [DecidableEq α] (l : List α) :
    ∀ acc : List α, (∀ x ∈ l, x ∈ acc) → l.foldl insertUniq acc = acc := by
  induction l with
  | nil => intro acc _; rfl
  | cons a l ih =>
    intro acc h
    have ha : a ∈ acc := h a (List.mem_cons_self a l)
    simp only [List.foldl_cons, insertUniq, if_pos ha]
    exact ih acc fun x hx => h x (List.mem_cons_of_mem a hx)

theorem foldl_insertUniq_of_nodup {α : Type} [DecidableEq α] (l : List α) :
    ∀ acc : List α, (acc ++ l).Nodup → l.foldl insertUniq acc = acc ++ l := by
  induction l with
  | nil => intro acc _; simp
  | cons a l ih =>
    intro acc h
    have ha : a ∉ acc := by
      intro hmem
      rcases List.nodup_append.mp h with ⟨_, _, hdisj⟩
      exact hdisj hmem (List.mem_cons_self a l)
    have hstep : insertUniq acc a = acc ++ [a] := by
      simp [insertUniq, if_neg ha]
    have hassoc : acc ++ a :: l = (acc ++ [a]) ++ l := by simp
    calc (a :: l).foldl insertUniq acc = l.foldl insertUniq (acc ++ [a]) := by
          simp [List.foldl_cons, hstep]
      _ = (acc ++ [a]) ++ l := ih (acc ++ [a]) (by rw [← hassoc]; exact h)
      _ = acc ++ a :: l := hassoc.symm

theorem dedupFirst_of_nodup {α : Type} [DecidableEq α] (l : List α)
    (h : l.Nodup) : dedupFirst l = l := by
  unfold dedupFirst
  simpa using foldl_insertUniq_of_nodup l [] (by simpa using h)

theorem dedupFirst_append_self {α : Type} [DecidableEq α] (l : List α) :
    dedupFirst (l ++ l) = dedupFirst l := by
  unfold dedupFirst
  rw [List.foldl_append]
  exact foldl_insertUniq_of_subset l (dedupFirst l)
    fun x hx => (mem_dedupFirst l x).mpr hx

theorem dedupFirst_ne_nil {α : Type} [DecidableEq α] (l : List α)
    (h : l ≠ []) : dedupFirst l ≠ [] := by
  obtain ⟨a, ha⟩ := List.exists_mem_of_ne_nil l h
  exact List.ne_nil_of_mem ((mem_dedupFirst l a).mpr ha)

theorem mem_insSorted (a b : String) (l : List String) :
    b ∈ insSorted a l ↔ b = a ∨ b ∈ l := by
  induction l with
  | nil => simp [insSorted]
  | cons c l ih =>
    unfold insSorted
    split
    all_goals simp only [List.mem_cons, ih]
    all_goals tauto

theorem mem_sortStrs (l : List String) (b : String) :
    b ∈ sortStrs l ↔ b ∈ l := by
  induction l with
  | nil => simp [sortStrs]
  | cons a l ih =>
    simp only [sortStrs, List.foldr_cons, mem_insSorted, List.mem_cons]
    rw [show l.foldr insSorted [] = sortStrs l from rfl, ih]

theorem dictGet_nil {α β : Type} [DecidableEq α] (k : α) :
    dictGet ([] : List (α × β)) k = none := rfl

theorem dictGet_cons {α β : Type} [DecidableEq α] (p : α × β) (d : List (α × β))
    (k : α) : dictGet (p :: d) k = if p.1 = k then some p.2 else dictGet d k := rfl

theorem dictGet_append {α β : Type} [DecidableEq α] (d e : List (α × β)) (k : α) :
    dictGet (d ++ e) k =
      match dictGet d k with
      | some v => some v
      | none => dictGet e k := by
  induction d with
  | nil => simp [dictGet_nil]
  | cons p d ih =>
    rw [List.cons_append, dictGet_cons, dictGet_cons]
    by_cases h : p.1 = k
    · simp [if_pos h]
    · simp only [if_neg h, ih]

theorem dictGet_eq_none_of_not_mem {α β : Type} [DecidableEq α]
    (d : List (α × β)) (k : α) (h : k ∉ d.map Prod.fst) : dictGet d k = none := by
  induction d with
  | nil => rfl
  | cons p d ih =>
    simp only [List.map_cons, List.mem_cons, not_or] at h
    rw [dictGet_cons, if_neg (fun he : p.1 = k => h.1 he.symm)]
    exact ih h.2

theorem dictGet_map_update {α β : Type} [DecidableEq α]
    (d : List (α × β)) (k k2 : α) (v : β) :
    dictGet (d.map (fun p => if p.1 = k then (k, v) else p)) k2 =
      if k2 = k then (if k ∈ d.map Prod.fst then some v else none)
      else dictGet d k2 := by
  induction d with
  | nil => by_cases h : k2 = k <;> simp [dictGet_nil, h]
  | cons p d ih =>
    rw [List.map_cons, dictGet_cons]
    by_cases hp : p.1 = k
    · by_cases h2 : k2 = k
      · subst h2
        rw [if_pos (show (if p.1 = k2 then (k2, v) else p).1 = k2 by
              rw [if_pos hp])]
        rw [if_pos rfl]
        have hmem : k2 ∈ (p :: d).map Prod.fst := by
          rw [List.map_cons, ← hp]
          exact List.mem_cons_self p.1 (d.map Prod.fst)
        rw [if_pos hmem, if_pos hp]
      · rw [if_neg (show ¬ (if p.1 = k then (k, v) else p).1 = k2 by
              rw [if_pos hp]; exact fun he : k = k2 => h2 he.symm)]
        rw [ih, if_neg h2, if_neg h2, dictGet_cons,
          if_neg (fun he : p.1 = k2 => h2 (hp ▸ he).symm)]
    · rw [if_neg hp]
      by_cases h2 : k2 = k
      · subst h2
        rw [if_neg (fun he : p.1 = k2 => hp he), ih, if_pos rfl, if_pos rfl,
          List.map_cons]
        by_cases hm : k2 ∈ d.map Prod.fst
        · rw [if_pos hm, if_pos (List.mem_cons_of_mem p.1 hm)]
        · rw [if_neg hm, if_neg (by
            simp only [List.mem_cons]
            exact fun hor => hor.elim (fun he => hp he.symm) hm)]
      · rw [ih, if_neg h2, if_neg h2, dictGet_cons]

theorem dictGet_dictInsert {α β : Type} [DecidableEq α]
    (d : List (α × β)) (k k2 : α) (v : β) :
    dictGet (dictInsert d k v) k2 = if k2 = k then some v else dictGet d k2 := by
  unfold dictInsert
  by_cases hk : k ∈ d.map Prod.fst
  · rw [if_pos hk, dictGet_map_update, if_pos hk]
  · rw [if_neg hk, dictGet_append]
    by_cases h2 : k2 = k
    · subst h2
      rw [dictGet_eq_none_of_not_mem d k2 hk]
      simp [dictGet_cons, dictGet_nil]
    · cases hd : dictGet d k2 with
      | none =>
        rw [if_neg h2]
        simp [hd, dictGet_cons, dictGet_nil,
          if_neg (fun he : k = k2 => h2 he.symm)]
      | some w => simp [hd, if_neg h2]

theorem dictGet_isSome_of_mem {α β : Type} [DecidableEq α]
    (d : List (α × β)) (k : α) (h : k ∈ d.map Prod.fst) :
    ∃ v, dictGet d k = some v := by
  induction d with
  | nil => simp at h
  | cons p d ih =>
    by_cases hp : p.1 = k
    · exact ⟨p.2, by rw [dictGet_cons, if_pos hp]⟩
    · simp only [List.map_cons, List.mem_cons] at h
      rcases h with h | h
      · exact absurd h.symm hp
      · obtain ⟨v, hv⟩ := ih h
        exact ⟨v, by rw [dictGet_cons, if_neg hp]; exact hv⟩

theorem map_fst_dictInsert {α β : Type} [DecidableEq α]
    (d : List (α × β)) (k : α) (v : β) :
    (dictInsert d k v).map Prod.fst = insertUniq (d.map Prod.fst) k := by
  unfold dictInsert insertUniq
  by_cases hk : k ∈ d.map Prod.fst
  · rw [if_pos hk, if_pos hk, List.map_map]
    refine List.map_congr_left ?_
    intro p _
    by_cases hp : p.1 = k <;> simp [hp]
  · rw [if_neg hk, if_neg hk]
    simp

theorem map_fst_foldl_dictInsert (key : List String → List String) :
    ∀ (rows : List (List String)) (d : List (List String × List String)),
      ((rows.foldl (fun d r => dictInsert d (key r) r) d).map Prod.fst) =
        (rows.map key).foldl insertUniq (d.map Prod.fst) := by
  intro rows
  induction rows with
  | nil => intro d; rfl
  | cons r rs ih =>
    intro d
    simp only [List.foldl_cons, List.map_cons, ih, map_fst_dictInsert]

theorem map_fst_buildLookup (cols keys : List String) (rows : List (List String)) :
    (buildLookup cols keys rows).map Prod.fst =
      dedupFirst (rows.map (fun r => keyTuple cols r keys)) := by
  unfold buildLookup dedupFirst
  simpa using map_fst_foldl_dictInsert (fun r => keyTuple cols r keys) rows []

/-! ### Helper lemmas about normalization and classification -/

theorem normalizeCell_empty : normalizeCell "" = "" := by decide

theorem normalizeCell_congr (a b : String) (h : pyStrip a = pyStrip b) :
    normalizeCell a = normalizeCell b := by
  unfold normalizeCell
  rw [h]

theorem getD_map_normalizeCell (r : List String) (i : Nat) :
    (r.map normalizeCell).getD i "" = normalizeCell (r.getD i "") := by
  induction r generalizing i with
  | nil => simp [normalizeCell_empty]
  | cons x r ih =>
    cases i with
    | zero => rfl
    | succ j =>
      rw [List.map_cons, List.getD_cons_succ, List.getD_cons_succ]
      exact ih j

theorem rowGet_normalizeRow (cols r : List String) (c : String) :
    rowGet cols (normalizeRow r) c = normalizeCell (rowGet cols r c) := by
  unfold rowGet
  cases h : cols.indexOf? c with
  | none => exact normalizeCell_empty.symm
  | some i =>
    show (r.map normalizeCell).getD i "" = normalizeCell (r.getD i "")
    exact getD_map_normalizeCell r i

theorem compareRows_statusOK (cols1 cols2 allCols : List String)
    (o n : Option (List String)) (i : Nat) :
    StatusOK (compareRows cols1 o cols2 n allCols i) := by
  unfold StatusOK
  cases o <;> cases n <;> simp only [compareRows]
  · tauto
  · tauto
  · tauto
  · split <;> tauto

theorem compareRows_status_index (cols1 cols2 allCols : List String)
    (o n : Option (List String)) (i j : Nat) :
    (compareRows cols1 o cols2 n allCols i).status =
      (compareRows cols1 o cols2 n allCols j).status := by
  cases o <;> cases n <;> rfl

theorem length_eq_countStatus_sum (l : List DiffRow)
    (h : ∀ d ∈ l, StatusOK d) :
    l.length = countStatus "added" l + countStatus "removed" l +
      countStatus "modified" l + countStatus "unchanged" l := by
  induction l with
  | nil => simp [countStatus]
  | cons d l ih =>
    have hd := h d (List.mem_cons_self d l)
    have ihl := ih fun x hx => h x (List.mem_cons_of_mem d hx)
    unfold StatusOK at hd
    simp only [countStatus, List.countP_cons, List.length_cons] at ihl ⊢
    rcases hd with h1 | h1 | h1 | h1 <;> simp [h1] <;> omega

theorem keyedRows_statusOK (sigk : List (List String) → List (List String))
    (t1 t2 : Table) (kc ac : List String) :
    ∀ d ∈ keyedRows sigk t1 t2 kc ac, StatusOK d := by
  intro d hd
  unfold keyedRows at hd
  obtain ⟨p, _, rfl⟩ := List.mem_map.mp hd
  exact compareRows_statusOK _ _ _ _ _ _

theorem positionalRows_statusOK (t1 t2 : Table) (ac : List String) :
    ∀ d ∈ positionalRows t1 t2 ac, StatusOK d := by
  intro d hd
  unfold positionalRows at hd
  obtain ⟨i, _, rfl⟩ := List.mem_map.mp hd
  exact compareRows_statusOK _ _ _ _ _ _

/-- The summary identity for the full comparison. -/
theorem compare_total (sigc : List String → List String)
    (sigk : List (List String) → List (List String))
    (t1 t2 : Table) (f1 f2 : String) :
    (compare sigc sigk t1 t2 f1 f2).summary.total_rows =
      (compare sigc sigk t1 t2 f1 f2).summary.added_rows +
      (compare sigc sigk t1 t2 f1 f2).summary.removed_rows +
      (compare sigc sigk t1 t2 f1 f2).summary.modified_rows +
      (compare sigc sigk t1 t2 f1 f2).summary.unchanged_rows := by
  unfold compare
  split
  · rfl
  · dsimp only
    split
    · exact length_eq_countStatus_sum _ (positionalRows_statusOK _ _ _)
    · exact length_eq_countStatus_sum _ (keyedRows_statusOK _ _ _ _ _)

/-- The emission loop of `compare_customers` is filter-then-enumerate: one
added row per kept input row, indices counted from `i` in emission order. -/
theorem additionsLoop_eq (cols2 : List String) (idCol : String)
    (olds news allCols : List String) :
    ∀ (rows : List (List String)) (i : Nat),
      (∀ r ∈ rows, rowGet cols2 r idCol ∈ news) →
      additionsLoop cols2 idCol olds news allCols rows i =
        (List.enumFrom i (rows.filter
            (fun r => decide (¬ rowGet cols2 r idCol ∈ olds)))).map
          (fun p => DiffRow.mk p.1 "added" none
            (some (allCols.map (fun c => (c, rowGet cols2 p.2 c)))) none) := by
  intro rows
  induction rows with
  | nil => intro i _; rfl
  | cons r rs ih =>
    intro i h
    have hv : rowGet cols2 r idCol ∈ news := h r (List.mem_cons_self r rs)
    have hrs := fun x hx => h x (List.mem_cons_of_mem r hx)
    unfold additionsLoop
    by_cases ho : rowGet cols2 r idCol ∈ olds
    · rw [if_neg (fun hand => hand.2 ho), List.filter_cons,
        if_neg (by simp [ho])]
      exact ih i hrs
    · rw [if_pos ⟨hv, ho⟩, List.filter_cons, if_pos (by simp [ho]),
        List.enumFrom_cons, List.map_cons]
      rw [ih (i + 1) hrs]

/-- Matched normalized rows whose cells normalize equal over every column are
classified unchanged, with no changed columns. -/
theorem compareRows_unchanged_of_normEq (cols1 cols2 allCols r1 r2 : List String)
    (i : Nat)
    (h : ∀ c ∈ allCols,
      normalizeCell (rowGet cols1 r1 c) = normalizeCell (rowGet cols2 r2 c)) :
    (compareRows cols1 (some (normalizeRow r1)) cols2 (some (normalizeRow r2))
        allCols i).status = "unchanged" ∧
    (compareRows cols1 (some (normalizeRow r1)) cols2 (some (normalizeRow r2))
        allCols i).changed_columns = none := by
  have hfil : changedColumnsOf cols1 (normalizeRow r1) cols2 (normalizeRow r2)
      allCols = [] := by
    unfold changedColumnsOf
    rw [List.filter_eq_nil_iff]
    intro c hc
    rw [rowGet_normalizeRow, rowGet_normalizeRow, h c hc]
    simp
  constructor <;> simp [compareRows, hfil]

theorem normalizeTable_cols (t : Table) : (normalizeTable t).cols = t.cols := rfl

theorem normalizeTable_rows_length (t : Table) :
    (normalizeTable t).rows.length = t.rows.length := by
  unfold normalizeTable
  exact List.length_map _ _

theorem countStatus_eq_zero_of (l : List DiffRow) (s : String)
    (h : ∀ d ∈ l, ¬ d.status = s) : countStatus s l = 0 := by
  unfold countStatus
  rw [List.countP_eq_zero]
  intro d hd
  simp [h d hd]

theorem countStatus_eq_length_of (l : List DiffRow) (s : String)
    (h : ∀ d ∈ l, d.status = s) : countStatus s l = l.length := by
  unfold countStatus
  rw [List.countP_eq_length]
  intro d hd
  simp [h d hd]

theorem snd_mem_of_mem_enumFrom {α : Type} :
    ∀ (l : List α) (n : Nat) (p : Nat × α), p ∈ List.enumFrom n l → p.2 ∈ l := by
  intro l
  induction l with
  | nil => intro n p h; simp at h
  | cons a l ih =>
    intro n p h
    rw [List.enumFrom_cons] at h
    rcases List.mem_cons.mp h with h | h
    · rw [h]
      exact List.mem_cons_self a l
    · exact List.mem_cons_of_mem a (ih (n + 1) p h)

theorem countP_enumFrom_snd {α : Type} (q : α → Bool) :
    ∀ (l : List α) (n : Nat),
      List.countP (fun p : Nat × α => q p.2) (List.enumFrom n l) =
        List.countP q l := by
  intro l
  induction l with
  | nil => intro n; rfl
  | cons a l ih =>
    intro n
    rw [List.enumFrom_cons, List.countP_cons, List.countP_cons, ih (n + 1)]

/-- Counting `countStatus` over the keyed branch depends on the enumerated key set only
through its multiset of elements: the status of the row built for a key does
not depend on the position index. -/
theorem countStatus_keyedRows (sigk : List (List String) → List (List String))
    (t1 t2 : Table) (kc ac : List String) (s : String) :
    countStatus s (keyedRows sigk t1 t2 kc ac) =
      List.countP
        (fun k => decide ((compareRows t1.cols
          (dictGet (buildLookup t1.cols kc t1.rows) k) t2.cols
          (dictGet (buildLookup t2.cols kc t2.rows) k) ac 0).status = s))
        (sigk (dedupFirst ((buildLookup t1.cols kc t1.rows).map Prod.fst ++
          (buildLookup t2.cols kc t2.rows).map Prod.fst))) := by
  unfold keyedRows countStatus
  rw [List.countP_map]
  rw [List.countP_congr (fun p _ => ?_)]
  · exact countP_enumFrom_snd _ _ 0
  · show (decide _ = true) ↔ (decide _ = true)
    rw [decide_eq_true_eq, decide_eq_true_eq,
      compareRows_status_index _ _ _ _ _ p.1 0]

/-- Data-presence shape of a classified row when at least one side is
present. -/
theorem compareRows_presence (cols1 cols2 ac : List String)
    (o n : Option (List String)) (i : Nat) (h : o ≠ none ∨ n ≠ none) :
    ((compareRows cols1 o cols2 n ac i).old_data = none ↔
      (compareRows cols1 o cols2 n ac i).status = "added") ∧
    ((compareRows cols1 o cols2 n ac i).new_data = none ↔
      (compareRows cols1 o cols2 n ac i).status = "removed") ∧
    (((compareRows cols1 o cols2 n ac i).status = "modified" ∨
        (compareRows cols1 o cols2 n ac i).status = "unchanged") →
      (compareRows cols1 o cols2 n ac i).old_data ≠ none ∧
      (compareRows cols1 o cols2 n ac i).new_data ≠ none) := by
  rcases o with _ | og <;> rcases n with _ | nr
  · simp at h
  · refine ⟨?_, ?_, ?_⟩ <;> simp [compareRows]
  · refine ⟨?_, ?_, ?_⟩ <;> simp [compareRows]
  · refine ⟨?_, ?_, ?_⟩ <;> simp only [compareRows] <;> split <;> simp

/-! ### Claim theorems -/

/-- Claim C1 (refuted; the code contradicts the design contract that the core
never throws): in additions-only mode, the identifier column is validated
against the union of the two column sets, and then both frames are indexed
with it.  At these tables the auto-detected column "id" exists only in the
second table, so `df1_normalized["id"]` raises a KeyError, modelled here as
`none`: `compare_customers` does not return a DiffResult. -/
theorem C1_compare_customers_keyerror :
    compare_customers id id (Table.mk ["name"] [["x"]]) (Table.mk ["id"] [["1"]])
      "f1" "f2" none = none := by decide

/-- Claim C2: every DiffResult produced by `compare` or by `compare_customers`
satisfies totalRows = addedRows + removedRows + modifiedRows + unchangedRows. -/
theorem C2_summary_totals (sigc : List String → List String)
    (sigk : List (List String) → List (List String))
    (t1 t2 : Table) (f1 f2 : String) (c : Option String) (r : DiffResult)
    (h : compare sigc sigk t1 t2 f1 f2 = r ∨
      compare_customers sigc sigk t1 t2 f1 f2 c = some r) :
    r.summary.total_rows =
      r.summary.added_rows + r.summary.removed_rows + r.summary.modified_rows +
        r.summary.unchanged_rows := by
  rcases h with h | h
  · subst h
    exact compare_total sigc sigk t1 t2 f1 f2
  · unfold compare_customers at h
    split at h
    · injection h with h
      subst h
      rfl
    · dsimp only at h
      split at h
      · injection h with h
        subst h
        exact compare_total sigc sigk t1 t2 f1 f2
      · split at h
        · injection h with h
          subst h
          exact compare_total sigc sigk t1 t2 f1 f2
        · split at h
          · injection h with h
            subst h
            dsimp only
            omega
          · exact Option.noConfusion h

/-- Witness for C2 at a concrete pair of one-row tables. -/
theorem C2_summary_totals_witness :
    (compare id id (Table.mk ["a"] [["1"]]) (Table.mk ["a"] [["2"]]) "x" "y").summary.total_rows =
      (compare id id (Table.mk ["a"] [["1"]]) (Table.mk ["a"] [["2"]]) "x" "y").summary.added_rows +
      (compare id id (Table.mk ["a"] [["1"]]) (Table.mk ["a"] [["2"]]) "x" "y").summary.removed_rows +
      (compare id id (Table.mk ["a"] [["1"]]) (Table.mk ["a"] [["2"]]) "x" "y").summary.modified_rows +
      (compare id id (Table.mk ["a"] [["1"]]) (Table.mk ["a"] [["2"]]) "x" "y").summary.unchanged_rows :=
  C2_summary_totals id id (Table.mk ["a"] [["1"]]) (Table.mk ["a"] [["2"]])
    "x" "y" none (compare id id (Table.mk ["a"] [["1"]]) (Table.mk ["a"] [["2"]]) "x" "y")
    (Or.inl rfl)

/-- Claim C3: in additions-only mode with a usable identifier column (present
in both tables, non-empty name), the result has exactly one added DiffRow per
row of table B whose normalized identifier value does not occur among table
A's normalized identifier values, in B's row order with rowIndex 0,1,2,... in
emission order; the summary is total = added = that count, all other counts
zero. -/
theorem C3_additions_only_rows (sigc : List String → List String)
    (sigk : List (List String) → List (List String))
    (t1 t2 : Table) (f1 f2 : String) (c : String)
    (h1 : c ∈ t1.cols) (h2 : c ∈ t2.cols) (hc : c ≠ "") :
    ∃ r, compare_customers sigc sigk t1 t2 f1 f2 (some c) = some r ∧
      r.rows = (List.enumFrom 0 ((normalizeTable t2).rows.filter
          (fun row => decide (¬ rowGet (normalizeTable t2).cols row c ∈
            (normalizeTable t1).rows.map
              (fun q => rowGet (normalizeTable t1).cols q c))))).map
        (fun p => DiffRow.mk p.1 "added" none
          (some ((allColumns (normalizeTable t1) (normalizeTable t2)).map
            (fun col => (col, rowGet (normalizeTable t2).cols p.2 col)))) none) ∧
      r.summary = DiffSummary.mk r.rows.length r.rows.length 0 0 0 := by
  have hc1n : c ∈ (normalizeTable t1).cols := h1
  have hc2n : c ∈ (normalizeTable t2).cols := h2
  unfold compare_customers
  by_cases hemp : (t1.isEmptyDF && t2.isEmptyDF) = true
  · rw [if_pos hemp]
    have ht2 : t2.rows = [] := by
      have h2e : t2.isEmptyDF = true := by
        have h' := hemp
        rw [Bool.and_eq_true] at h'
        exact h'.2
      unfold Table.isEmptyDF at h2e
      rw [Bool.or_eq_true] at h2e
      rcases h2e with hr | hcol
      · exact List.isEmpty_iff.mp hr
      · exact absurd (List.isEmpty_iff.mp hcol) (List.ne_nil_of_mem h2)
    refine ⟨_, rfl, ?_, rfl⟩
    rw [show (normalizeTable t2).rows = [] from by
      unfold normalizeTable
      rw [ht2]
      rfl]
    rfl
  · rw [if_neg hemp]
    dsimp only
    have hmemAll : c ∈ allColumns (normalizeTable t1) (normalizeTable t2) := by
      unfold allColumns
      rw [mem_sortStrs, mem_dedupFirst]
      exact List.mem_append.mpr (Or.inl h1)
    rw [if_neg (show ¬ (c = "" ∨
        ¬ c ∈ allColumns (normalizeTable t1) (normalizeTable t2)) from by
      push_neg
      exact ⟨hc, hmemAll⟩)]
    rw [show colVals (normalizeTable t1) c = some ((normalizeTable t1).rows.map
        (fun q => rowGet (normalizeTable t1).cols q c)) from by
      unfold colVals
      rw [if_pos hc1n]]
    rw [show colVals (normalizeTable t2) c = some ((normalizeTable t2).rows.map
        (fun q => rowGet (normalizeTable t2).cols q c)) from by
      unfold colVals
      rw [if_pos hc2n]]
    dsimp only
    refine ⟨_, rfl, ?_, rfl⟩
    rw [additionsLoop_eq _ _ _ _ _ _ 0
      (fun row hrow => List.mem_map_of_mem _ hrow)]

/-- Witness for C3 at the spec's example: ids 1,2 against ids 1,2,3. -/
theorem C3_additions_only_rows_witness :
    ∃ r, compare_customers id id
        (Table.mk ["id", "name"] [["1", "Alice"], ["2", "Bob"]])
        (Table.mk ["id", "name"] [["1", "Alice"], ["2", "Bob"], ["3", "Charlie"]])
        "a" "b" (some "id") = some r ∧
      r.rows = (List.enumFrom 0
          ((normalizeTable (Table.mk ["id", "name"]
              [["1", "Alice"], ["2", "Bob"], ["3", "Charlie"]])).rows.filter
            (fun row => decide (¬ rowGet (normalizeTable (Table.mk ["id", "name"]
                [["1", "Alice"], ["2", "Bob"], ["3", "Charlie"]])).cols row "id" ∈
              (normalizeTable (Table.mk ["id", "name"]
                  [["1", "Alice"], ["2", "Bob"]])).rows.map
                (fun q => rowGet (normalizeTable (Table.mk ["id", "name"]
                  [["1", "Alice"], ["2", "Bob"]])).cols q "id"))))).map
        (fun p => DiffRow.mk p.1 "added" none
          (some ((allColumns
              (normalizeTable (Table.mk ["id", "name"] [["1", "Alice"], ["2", "Bob"]]))
              (normalizeTable (Table.mk ["id", "name"]
                [["1", "Alice"], ["2", "Bob"], ["3", "Charlie"]]))).map
            (fun col => (col, rowGet (normalizeTable (Table.mk ["id", "name"]
                [["1", "Alice"], ["2", "Bob"], ["3", "Charlie"]])).cols p.2 col)))) none) ∧
      r.summary = DiffSummary.mk r.rows.length r.rows.length 0 0 0 :=
  C3_additions_only_rows id id
    (Table.mk ["id", "name"] [["1", "Alice"], ["2", "Bob"]])
    (Table.mk ["id", "name"] [["1", "Alice"], ["2", "Bob"], ["3", "Charlie"]])
    "a" "b" "id" (by decide) (by decide) (by decide)

/-- Claim C4 (refuted as stated): comparing the table with duplicate rows
[["x"],["x"]] to itself collapses the duplicate key tuples in the lookup
(last row wins), so the result has a single unchanged row — unchangedRows is
1, not the table's row count 2. -/
theorem C4_counterexample :
    (compare id id (Table.mk ["a"] [["x"], ["x"]])
        (Table.mk ["a"] [["x"], ["x"]]) "f" "g").summary.unchanged_rows = 1 ∧
    (Table.mk ["a"] [["x"], ["x"]]).rows.length = 2 ∧
    ¬ ((compare id id (Table.mk ["a"] [["x"], ["x"]])
        (Table.mk ["a"] [["x"], ["x"]]) "f" "g").summary.unchanged_rows =
      (Table.mk ["a"] [["x"], ["x"]]).rows.length) := by decide

/-- Claim C4 amended: for a table with a non-empty column list whose
normalized rows have pairwise distinct key tuples under the selected key
columns (in particular, no duplicate rows), comparing the table to itself
yields unchangedRows = rowCount and addedRows = removedRows = modifiedRows =
0, for any set-enumeration orders that are permutations. -/
theorem C4_self_compare_unchanged (sigc : List String → List String)
    (sigk : List (List String) → List (List String))
    (T : Table) (f1 f2 : String)
    (hsc : ∀ l : List String, (sigc l).Perm l)
    (hsk : ∀ l : List (List String), (sigk l).Perm l)
    (hcols : T.cols ≠ [])
    (hnd : ((normalizeTable T).rows.map (fun r =>
      keyTuple (normalizeTable T).cols r
        (findKeyColumns sigc (normalizeTable T) (normalizeTable T)))).Nodup) :
    (compare sigc sigk T T f1 f2).summary =
      DiffSummary.mk T.rows.length 0 0 0 T.rows.length := by
  by_cases hrows : T.rows = []
  · have hemp : (T.isEmptyDF && T.isEmptyDF) = true := by
      unfold Table.isEmptyDF
      rw [hrows]
      simp
    unfold compare
    rw [if_pos hemp, hrows]
    rfl
  · have hemp : ¬ (T.isEmptyDF && T.isEmptyDF) = true := by
      unfold Table.isEmptyDF
      simp [hrows, hcols]
    unfold compare
    rw [if_neg hemp]
    dsimp only
    have hcomne : commonCols sigc (normalizeTable T) (normalizeTable T) ≠ [] := by
      unfold commonCols
      intro hnil
      have hlen := (hsc (dedupFirst ((normalizeTable T).cols.filter
        (fun c => decide (c ∈ (normalizeTable T).cols))))).length_eq
      rw [hnil] at hlen
      have hfil : (normalizeTable T).cols.filter
          (fun c => decide (c ∈ (normalizeTable T).cols)) = (normalizeTable T).cols := by
        rw [List.filter_eq_self]
        intro c hc
        simp [hc]
      rw [hfil] at hlen
      have hne := dedupFirst_ne_nil (normalizeTable T).cols hcols
      have h0 : (dedupFirst (normalizeTable T).cols).length = 0 := by
        simpa using hlen.symm
      exact hne (List.length_eq_zero.mp h0)
    have hkeyne : findKeyColumns sigc (normalizeTable T) (normalizeTable T) ≠ [] := by
      unfold findKeyColumns
      dsimp only
      rw [if_neg hcomne]
      intro htake
      rcases List.take_eq_nil_iff.mp htake with h3 | hinner
      · exact absurd h3 (by decide)
      · by_cases hpot : potentialKeys sigc (normalizeTable T) (normalizeTable T) = []
        · rw [if_pos hpot] at hinner
          rcases List.take_eq_nil_iff.mp hinner with h4 | h5
          · rcases Nat.min_eq_zero_iff.mp h4 with h6 | h6
            · exact absurd h6 (by decide)
            · exact hcomne (List.length_eq_zero.mp h6)
          · exact hcomne h5
        · rw [if_neg hpot] at hinner
          exact hpot hinner
    rw [if_neg hkeyne]
    have hall : ∀ d ∈ keyedRows sigk (normalizeTable T) (normalizeTable T)
        (findKeyColumns sigc (normalizeTable T) (normalizeTable T))
        (allColumns (normalizeTable T) (normalizeTable T)),
        d.status = "unchanged" := by
      intro d hd
      unfold keyedRows at hd
      obtain ⟨p, hp, rfl⟩ := List.mem_map.mp hd
      cases hdg : dictGet (buildLookup (normalizeTable T).cols
          (findKeyColumns sigc (normalizeTable T) (normalizeTable T))
          (normalizeTable T).rows) p.2 with
      | none => rfl
      | some row =>
        have hch : changedColumnsOf (normalizeTable T).cols row
            (normalizeTable T).cols row
            (allColumns (normalizeTable T) (normalizeTable T)) = [] := by
          unfold changedColumnsOf
          rw [List.filter_eq_nil_iff]
          intro c hc
          simp
        simp [compareRows, hch]
    have hlen : (keyedRows sigk (normalizeTable T) (normalizeTable T)
        (findKeyColumns sigc (normalizeTable T) (normalizeTable T))
        (allColumns (normalizeTable T) (normalizeTable T))).length =
        T.rows.length := by
      unfold keyedRows
      rw [List.length_map, List.enum_length,
        (hsk _).length_eq, map_fst_buildLookup, dedupFirst_append_self,
        dedupFirst_of_nodup _ hnd, dedupFirst_of_nodup _ hnd,
        List.length_map, normalizeTable_rows_length]
    rw [countStatus_eq_length_of _ _ hall, hlen,
      countStatus_eq_zero_of _ "added"
        (fun d hd => by rw [hall d hd]; decide),
      countStatus_eq_zero_of _ "removed"
        (fun d hd => by rw [hall d hd]; decide),
      countStatus_eq_zero_of _ "modified"
        (fun d hd => by rw [hall d hd]; decide)]

/-- Witness for the amended C4 at a duplicate-free two-row table. -/
theorem C4_self_compare_unchanged_witness :
    (compare id id (Table.mk ["id", "name"] [["1", "a"], ["2", "b"]])
        (Table.mk ["id", "name"] [["1", "a"], ["2", "b"]]) "f" "g").summary =
      DiffSummary.mk 2 0 0 0 2 :=
  C4_self_compare_unchanged id id
    (Table.mk ["id", "name"] [["1", "a"], ["2", "b"]]) "f" "g"
    (fun l => List.Perm.refl l) (fun l => List.Perm.refl l)
    (by decide) (by decide)

/-- Claim C5 (refuted as stated): with an empty first table, column "d" has
uniqueness ratio 1 > 0.8 in the non-empty second table, yet it does not
qualify — the qualification loop is skipped entirely when either table has 0
rows, and the fallback picks the first three common columns instead. -/
theorem C5_counterexample :
    (Table.mk ["a", "b", "c", "d"] []).rows.length = 0 ∧
    4 * (Table.mk ["a", "b", "c", "d"]
        [["u", "u", "u", "1"], ["u", "u", "u", "2"], ["u", "u", "u", "3"],
         ["u", "u", "u", "4"], ["u", "u", "u", "5"]]).rows.length <
      5 * uniqueCount (Table.mk ["a", "b", "c", "d"]
        [["u", "u", "u", "1"], ["u", "u", "u", "2"], ["u", "u", "u", "3"],
         ["u", "u", "u", "4"], ["u", "u", "u", "5"]]) "d" ∧
    ¬ "d" ∈ potentialKeys id (Table.mk ["a", "b", "c", "d"] [])
      (Table.mk ["a", "b", "c", "d"]
        [["u", "u", "u", "1"], ["u", "u", "u", "2"], ["u", "u", "u", "3"],
         ["u", "u", "u", "4"], ["u", "u", "u", "5"]]) ∧
    ¬ "d" ∈ findKeyColumns id (Table.mk ["a", "b", "c", "d"] [])
      (Table.mk ["a", "b", "c", "d"]
        [["u", "u", "u", "1"], ["u", "u", "u", "2"], ["u", "u", "u", "3"],
         ["u", "u", "u", "4"], ["u", "u", "u", "5"]]) := by decide

/-- Claim C5 amended: when either table has zero rows, the uniqueness
qualification is skipped entirely, so no column qualifies; key selection then
falls back to the first min(3, |common|) columns of the common-column
enumeration. -/
theorem C5_empty_table_skips_qualification (sigc : List String → List String)
    (t1 t2 : Table) (h : t1.rows = [] ∨ t2.rows = []) :
    potentialKeys sigc t1 t2 = [] ∧
    findKeyColumns sigc t1 t2 =
      ((commonCols sigc t1 t2).take
        (min 3 (commonCols sigc t1 t2).length)).take 3 := by
  have hpot : potentialKeys sigc t1 t2 = [] := by
    unfold potentialKeys
    rw [List.filter_eq_nil_iff]
    intro c hc
    rcases h with h | h <;> simp [h]
  refine ⟨hpot, ?_⟩
  unfold findKeyColumns
  dsimp only
  by_cases hcom : commonCols sigc t1 t2 = []
  · rw [if_pos hcom, hcom]
    rfl
  · rw [if_neg hcom, hpot, if_pos rfl]

/-- Witness for the amended C5 at the counterexample tables. -/
theorem C5_empty_table_skips_qualification_witness :
    potentialKeys id (Table.mk ["a", "b", "c", "d"] [])
      (Table.mk ["a", "b", "c", "d"]
        [["u", "u", "u", "1"], ["u", "u", "u", "2"], ["u", "u", "u", "3"],
         ["u", "u", "u", "4"], ["u", "u", "u", "5"]]) = [] ∧
    findKeyColumns id (Table.mk ["a", "b", "c", "d"] [])
      (Table.mk ["a", "b", "c", "d"]
        [["u", "u", "u", "1"], ["u", "u", "u", "2"], ["u", "u", "u", "3"],
         ["u", "u", "u", "4"], ["u", "u", "u", "5"]]) =
      ((commonCols id (Table.mk ["a", "b", "c", "d"] [])
          (Table.mk ["a", "b", "c", "d"]
            [["u", "u", "u", "1"], ["u", "u", "u", "2"], ["u", "u", "u", "3"],
             ["u", "u", "u", "4"], ["u", "u", "u", "5"]])).take
        (min 3 (commonCols id (Table.mk ["a", "b", "c", "d"] [])
          (Table.mk ["a", "b", "c", "d"]
            [["u", "u", "u", "1"], ["u", "u", "u", "2"], ["u", "u", "u", "3"],
             ["u", "u", "u", "4"], ["u", "u", "u", "5"]])).length)).take 3 :=
  C5_empty_table_skips_qualification id
    (Table.mk ["a", "b", "c", "d"] [])
    (Table.mk ["a", "b", "c", "d"]
      [["u", "u", "u", "1"], ["u", "u", "u", "2"], ["u", "u", "u", "3"],
       ["u", "u", "u", "4"], ["u", "u", "u", "5"]])
    (Or.inl rfl)

/-- Claim C6: a matched pair of rows whose cell values differ only in
leading/trailing whitespace in every column (equal after stripping) is
classified unchanged with no changed columns; a whitespace-only difference
never yields modified. -/
theorem C6_whitespace_only_unchanged (cols1 cols2 allCols r1 r2 : List String)
    (i : Nat)
    (h : ∀ c ∈ allCols,
      pyStrip (rowGet cols1 r1 c) = pyStrip (rowGet cols2 r2 c)) :
    (compareRows cols1 (some (normalizeRow r1)) cols2 (some (normalizeRow r2))
        allCols i).status = "unchanged" ∧
    (compareRows cols1 (some (normalizeRow r1)) cols2 (some (normalizeRow r2))
        allCols i).changed_columns = none :=
  compareRows_unchanged_of_normEq cols1 cols2 allCols r1 r2 i
    (fun c hc => normalizeCell_congr _ _ (h c hc))

/-- Witness for C6 at the spec's example pair "Bob  " vs "Bob". -/
theorem C6_whitespace_only_unchanged_witness :
    (compareRows ["name"] (some (normalizeRow ["Bob  "])) ["name"]
        (some (normalizeRow ["Bob"])) ["name"] 0).status = "unchanged" ∧
    (compareRows ["name"] (some (normalizeRow ["Bob  "])) ["name"]
        (some (normalizeRow ["Bob"])) ["name"] 0).changed_columns = none :=
  C6_whitespace_only_unchanged ["name"] ["name"] ["name"] ["Bob  "] ["Bob"] 0
    (by decide)

/-- Claim C7: duplicate key tuples within one table do not make the matcher
fail; the lookup built by `_match_rows_by_keys` maps each key to the last row
of the table (in row order) carrying that key, which is the single row used
for the key in the comparison. -/
theorem C7_duplicate_keys_last_wins (cols keys : List String)
    (rows : List (List String)) (k : List String) :
    dictGet (buildLookup cols keys rows) k =
      rows.reverse.find? (fun r => decide (keyTuple cols r keys = k)) := by
  induction rows using List.reverseRecOn with
  | nil => rfl
  | append_singleton rs r ih =>
    have hb : buildLookup cols keys (rs ++ [r]) =
        dictInsert (buildLookup cols keys rs) (keyTuple cols r keys) r := by
      unfold buildLookup
      rw [List.foldl_append]
      rfl
    rw [hb, dictGet_dictInsert, List.reverse_append]
    simp only [List.reverse_cons, List.reverse_nil, List.nil_append,
      List.singleton_append]
    by_cases hk : keyTuple cols r keys = k
    · rw [if_pos hk.symm, List.find?_cons_of_pos _ (by simp [hk])]
    · rw [if_neg (fun he => hk he.symm),
        List.find?_cons_of_neg _ (by simp [hk])]
      exact ih

/-- Claim C8 (refuted as stated): the output of `compare` depends on the
iteration order of the unordered key-tuple set; two runs differing only in
that hash-dependent order (modelled as first-seen versus reversed — both
permutations of the same set) produce different DiffResults on equal
inputs. -/
theorem C8_counterexample :
    compare id id (Table.mk ["id"] [["1"], ["2"]])
        (Table.mk ["id"] [["1"], ["2"]]) "f" "g" ≠
      compare id List.reverse (Table.mk ["id"] [["1"], ["2"]])
        (Table.mk ["id"] [["1"], ["2"]]) "f" "g" := by decide

/-- Claim C8 amended: `compare` is deterministic only once the iteration
orders of its unordered collections are fixed; with the common-column order
fixed, changing the key-set enumeration to any other permutation can permute
and re-index the DiffRows but leaves the summary unchanged. -/
theorem C8_summary_order_independent (sigc : List String → List String)
    (sigk sigk' : List (List String) → List (List String))
    (t1 t2 : Table) (f1 f2 : String)
    (hk : ∀ l : List (List String), (sigk l).Perm l)
    (hk' : ∀ l : List (List String), (sigk' l).Perm l) :
    (compare sigc sigk t1 t2 f1 f2).summary =
      (compare sigc sigk' t1 t2 f1 f2).summary := by
  unfold compare
  split
  · rfl
  · dsimp only
    by_cases hkc : findKeyColumns sigc (normalizeTable t1) (normalizeTable t2) = []
    · rw [if_pos hkc, if_pos hkc]
    · rw [if_neg hkc, if_neg hkc]
      have hperm : (sigk (dedupFirst
          ((buildLookup (normalizeTable t1).cols
            (findKeyColumns sigc (normalizeTable t1) (normalizeTable t2))
            (normalizeTable t1).rows).map Prod.fst ++
          (buildLookup (normalizeTable t2).cols
            (findKeyColumns sigc (normalizeTable t1) (normalizeTable t2))
            (normalizeTable t2).rows).map Prod.fst))).Perm
          (sigk' (dedupFirst
          ((buildLookup (normalizeTable t1).cols
            (findKeyColumns sigc (normalizeTable t1) (normalizeTable t2))
            (normalizeTable t1).rows).map Prod.fst ++
          (buildLookup (normalizeTable t2).cols
            (findKeyColumns sigc (normalizeTable t1) (normalizeTable t2))
            (normalizeTable t2).rows).map Prod.fst))) :=
        (hk _).trans (hk' _).symm
      have hlen : (keyedRows sigk (normalizeTable t1) (normalizeTable t2)
          (findKeyColumns sigc (normalizeTable t1) (normalizeTable t2))
          (allColumns (normalizeTable t1) (normalizeTable t2))).length =
        (keyedRows sigk' (normalizeTable t1) (normalizeTable t2)
          (findKeyColumns sigc (normalizeTable t1) (normalizeTable t2))
          (allColumns (normalizeTable t1) (normalizeTable t2))).length := by
        unfold keyedRows
        rw [List.length_map, List.length_map, List.enum_length,
          List.enum_length, hperm.length_eq]
      have hcnt : ∀ s, countStatus s (keyedRows sigk (normalizeTable t1)
          (normalizeTable t2)
          (findKeyColumns sigc (normalizeTable t1) (normalizeTable t2))
          (allColumns (normalizeTable t1) (normalizeTable t2))) =
        countStatus s (keyedRows sigk' (normalizeTable t1) (normalizeTable t2)
          (findKeyColumns sigc (normalizeTable t1) (normalizeTable t2))
          (allColumns (normalizeTable t1) (normalizeTable t2))) := by
        intro s
        rw [countStatus_keyedRows, countStatus_keyedRows, hperm.countP_eq]
      rw [hlen, hcnt "added", hcnt "removed", hcnt "modified", hcnt "unchanged"]

/-- Witness for the amended C8: first-seen versus reversed enumeration at the
counterexample tables give equal summaries. -/
theorem C8_summary_order_independent_witness :
    (compare id id (Table.mk ["id"] [["1"], ["2"]])
        (Table.mk ["id"] [["1"], ["2"]]) "f" "g").summary =
      (compare id List.reverse (Table.mk ["id"] [["1"], ["2"]])
        (Table.mk ["id"] [["1"], ["2"]]) "f" "g").summary :=
  C8_summary_order_independent id id List.reverse
    (Table.mk ["id"] [["1"], ["2"]]) (Table.mk ["id"] [["1"], ["2"]]) "f" "g"
    (fun l => List.Perm.refl l) (fun l => List.reverse_perm l)

/-- Claim C9: in every DiffRow produced by `compare` (with the key-set
enumeration a permutation of the key set), old-data is absent iff the status
is added, new-data is absent iff the status is removed, and both are present
for modified and unchanged rows. -/
theorem C9_data_presence (sigc : List String → List String)
    (sigk : List (List String) → List (List String))
    (t1 t2 : Table) (f1 f2 : String)
    (hsk : ∀ l : List (List String), (sigk l).Perm l) :
    ∀ d ∈ (compare sigc sigk t1 t2 f1 f2).rows,
      (d.old_data = none ↔ d.status = "added") ∧
      (d.new_data = none ↔ d.status = "removed") ∧
      ((d.status = "modified" ∨ d.status = "unchanged") →
        d.old_data ≠ none ∧ d.new_data ≠ none) := by
  unfold compare
  split
  · intro d hd
    simp at hd
  · dsimp only
    split
    · intro d hd
      unfold positionalRows at hd
      obtain ⟨i, hi, rfl⟩ := List.mem_map.mp hd
      rw [List.mem_range] at hi
      apply compareRows_presence
      rcases lt_max_iff.mp hi with h1 | h1
      · exact Or.inl (by rw [List.getElem?_eq_getElem h1]; exact fun h => Option.noConfusion h)
      · exact Or.inr (by rw [List.getElem?_eq_getElem h1]; exact fun h => Option.noConfusion h)
    · intro d hd
      unfold keyedRows at hd
      obtain ⟨p, hp, rfl⟩ := List.mem_map.mp hd
      apply compareRows_presence
      have hkmem : p.2 ∈ dedupFirst
          ((buildLookup (normalizeTable t1).cols
            (findKeyColumns sigc (normalizeTable t1) (normalizeTable t2))
            (normalizeTable t1).rows).map Prod.fst ++
          (buildLookup (normalizeTable t2).cols
            (findKeyColumns sigc (normalizeTable t1) (normalizeTable t2))
            (normalizeTable t2).rows).map Prod.fst) :=
        ((hsk _).mem_iff).mp (snd_mem_of_mem_enumFrom _ 0 p hp)
      rw [mem_dedupFirst] at hkmem
      rcases List.mem_append.mp hkmem with hmem | hmem
      · obtain ⟨v, hv⟩ := dictGet_isSome_of_mem _ _ hmem
        exact Or.inl (by rw [hv]; exact fun h => Option.noConfusion h)
      · obtain ⟨v, hv⟩ := dictGet_isSome_of_mem _ _ hmem
        exact Or.inr (by rw [hv]; exact fun h => Option.noConfusion h)

/-- Witness for C9 at a one-row-each pair with disjoint keys: the added row of
the result satisfies the presence invariant. -/
theorem C9_data_presence_witness :
    (DiffRow.mk 0 "added" none (some [("a", "1")]) none).old_data = none ↔
        (DiffRow.mk 0 "added" none (some [("a", "1")]) none).status = "added" :=
  (C9_data_presence id id (Table.mk ["a"] []) (Table.mk ["a"] [["1"]]) "f" "g"
    (fun l => List.Perm.refl l)
    (DiffRow.mk 0 "added" none (some [("a", "1")]) none) (by decide)).1

/-- Claim C10: normalization maps any cell stripping to exactly "nan" to the
empty string, so a literal "nan" (or " nan ") cell and a null cell (whose
string form is "nan") normalize identically, and a matched pair of rows whose
cells all normalize equal — e.g. differing only in that way — is classified
unchanged. -/
theorem C10_nan_cells_normalize_empty (s t : String)
    (cols1 cols2 allCols r1 r2 : List String) (i : Nat)
    (hs : pyStrip s = "nan") (ht : pyStrip t = "nan")
    (hrows : ∀ c ∈ allCols,
      normalizeCell (rowGet cols1 r1 c) = normalizeCell (rowGet cols2 r2 c)) :
    normalizeCell s = "" ∧ normalizeCell s = normalizeCell t ∧
      (compareRows cols1 (some (normalizeRow r1)) cols2 (some (normalizeRow r2))
          allCols i).status = "unchanged" := by
  refine ⟨?_, normalizeCell_congr s t (hs.trans ht.symm),
    (compareRows_unchanged_of_normEq cols1 cols2 allCols r1 r2 i hrows).1⟩
  show (if pyStrip s = "nan" then "" else pyStrip s) = ""
  rw [if_pos hs]

/-- Witness for C10: a " nan " cell against a null cell (string form "nan"). -/
theorem C10_nan_cells_normalize_empty_witness :
    normalizeCell " nan " = "" ∧ normalizeCell " nan " = normalizeCell "nan" ∧
      (compareRows ["v"] (some (normalizeRow [" nan "])) ["v"]
          (some (normalizeRow ["nan"])) ["v"] 0).status = "unchanged" :=
  C10_nan_cells_normalize_empty " nan " "nan" ["v"] ["v"] ["v"] [" nan "] ["nan"]
    0 (by decide) (by decide) (by decide)

end CsvDiff
